import Mathlib

/-!
Shallow embedding of the PNG chunk codec (`src/chunk_type.rs`, `src/chunk.rs`).

Bytes (`u8`) are modelled as `Nat` values; the invariant `b < 256` is carried
as a hypothesis where a statement depends on it.  32-bit values (`u32`) are
`Nat` with an explicit `% 2 ^ 32` exactly where the source performs a
narrowing cast.  Fallible Rust functions returning `Result` become `Except`;
a Rust panic site (`unwrap` / `expect`) is modelled by wrapping the result in
`Option`, with `none` standing for the panic.
-/

set_option maxRecDepth 100000

/-- Rust `u8::is_ascii_uppercase`. -/
def is_ascii_uppercase (b : Nat) : Bool :=
  65 ≤ b && b ≤ 90

/-- Rust `u8::is_ascii_lowercase`. -/
def is_ascii_lowercase (b : Nat) : Bool :=
  97 ≤ b && b ≤ 122

/-- The byte test used by both `ChunkType` construction paths:
`byte.is_ascii_uppercase() || byte.is_ascii_lowercase()`. -/
def is_ascii_alphabetic (b : Nat) : Bool :=
  is_ascii_uppercase b || is_ascii_lowercase b

/-- Big-endian interpretation of a byte list
(`u32::from_be_bytes` / `u64::from_be_bytes`, exact for in-range bytes). -/
def from_be_bytes (bs : List Nat) : Nat :=
  bs.foldl (fun acc b => acc * 256 + b) 0

/-- Rust `u32::to_be_bytes`. -/
def u32_to_be_bytes (n : Nat) : List Nat :=
  [n / 2 ^ 24 % 256, n / 2 ^ 16 % 256, n / 2 ^ 8 % 256, n % 256]

/-- The reflected CRC-32 (IEEE) polynomial used by `crc::crc32`. -/
def crc32Poly : Nat := 0xEDB88320

/-- One bit step of the CRC-32 update. -/
def crc32Step (c : Nat) : Nat :=
  if c % 2 = 1 then (c / 2) ^^^ crc32Poly else c / 2

/-- Iterate the bit step. -/
def crc32Bits : Nat → Nat → Nat
  | 0, c => c
  | n + 1, c => crc32Bits n (crc32Step c)

/-- Model of `crc::crc32::checksum_ieee`: standard CRC-32 with initial value `!0`,
bitwise-reflected polynomial `0xEDB88320` and final xor `!0`. -/
def checksum_ieee (bs : List Nat) : Nat :=
  (bs.foldl (fun c b => crc32Bits 8 (c ^^^ b % 256)) 0xFFFFFFFF) ^^^ 0xFFFFFFFF

/-- The `ChunkType` struct (src/chunk_type.rs): a 4-byte code.  The `[u8; 4]` array is
modelled as a `List Nat`; every construction path yields length 4. -/
structure ChunkType where
  bytes : List Nat
deriving DecidableEq, Repr

/-- Model of `ChunkType::is_critical`: bit 5 of byte 0 clear. -/
def ChunkType.is_critical (t : ChunkType) : Bool :=
  t.bytes.getD 0 0 &&& (1 <<< 5) = 0

/-- Model of `ChunkType::is_public`: bit 5 of byte 1 clear. -/
def ChunkType.is_public (t : ChunkType) : Bool :=
  t.bytes.getD 1 0 &&& (1 <<< 5) = 0

/-- Model of `ChunkType::is_reserved_bit_valid`: bit 5 of byte 2 clear. -/
def ChunkType.is_reserved_bit_valid (t : ChunkType) : Bool :=
  t.bytes.getD 2 0 &&& (1 <<< 5) = 0

/-- Model of `ChunkType::is_safe_to_copy`: bit 5 of byte 3 set. -/
def ChunkType.is_safe_to_copy (t : ChunkType) : Bool :=
  t.bytes.getD 3 0 &&& (1 <<< 5) = 1 <<< 5

/-- Model of `ChunkType::is_valid`. -/
def ChunkType.is_valid (t : ChunkType) : Bool :=
  t.is_reserved_bit_valid

/-- The `ChunkTypeDecodingError` enum (src/chunk_type.rs). -/
inductive ChunkTypeDecodingError where
  | badByte (b : Nat)
  | badLength (n : Nat)
deriving DecidableEq, Repr

/-- Model of `impl TryFrom<[u8; 4]> for ChunkType`: scan the 4 bytes, failing on the
first non-alphabetic one. -/
def ChunkType.tryFrom (bs : List Nat) : Except ChunkTypeDecodingError ChunkType :=
  match bs.find? (fun b => !(is_ascii_uppercase b || is_ascii_lowercase b)) with
  | some b => Except.error (ChunkTypeDecodingError.badByte b)
  | none => Except.ok ⟨bs⟩

/-- Model of `impl FromStr for ChunkType` (the string is modelled as its byte list):
reject a length other than 4, then copy bytes, failing on the first
non-alphabetic one. -/
def ChunkType.fromStr (bs : List Nat) : Except ChunkTypeDecodingError ChunkType :=
  if bs.length ≠ 4 then Except.error (ChunkTypeDecodingError.badLength bs.length)
  else
    match bs.find? (fun b => !(is_ascii_uppercase b || is_ascii_lowercase b)) with
    | some b => Except.error (ChunkTypeDecodingError.badByte b)
    | none => Except.ok ⟨bs⟩

/-- The `Chunk` struct (src/chunk.rs). -/
structure Chunk where
  length : Nat
  chunk_type : ChunkType
  chunk_data : List Nat
  crc : Nat
deriving DecidableEq, Repr

/-- Model of `Chunk::new`: `length` is `chunk_data.len() as u32` — a narrowing cast,
hence the `% 2 ^ 32`; `crc` is `checksum_ieee(type bytes ++ data)`. -/
def Chunk.new (chunk_type : ChunkType) (chunk_data : List Nat) : Chunk :=
  { length := chunk_data.length % 2 ^ 32
    chunk_type := chunk_type
    chunk_data := chunk_data
    crc := checksum_ieee (chunk_type.bytes ++ chunk_data) }

/-- Model of `Chunk::data`. -/
def Chunk.data (c : Chunk) : List Nat :=
  c.chunk_data

/-- Model of `Chunk::as_bytes`: big-endian length, type bytes, data, big-endian CRC. -/
def Chunk.as_bytes (c : Chunk) : List Nat :=
  u32_to_be_bytes c.length ++ c.chunk_type.bytes ++ c.data ++ u32_to_be_bytes c.crc

/-- UTF-8 continuation byte (`0x80..=0xBF`). -/
def isUtf8Cont (b : Nat) : Bool :=
  0x80 ≤ b && b ≤ 0xBF

/-- Validity of a byte list as UTF-8, as checked by `String::from_utf8`
(standard UTF-8: no overlong forms, no surrogates, max `U+10FFFF`). -/
def utf8Valid : List Nat → Bool
  | [] => true
  | b :: rest =>
    if b ≤ 0x7F then utf8Valid rest
    else if 0xC2 ≤ b && b ≤ 0xDF then
      match rest with
      | c1 :: r => isUtf8Cont c1 && utf8Valid r
      | [] => false
    else if b = 0xE0 then
      match rest with
      | c1 :: c2 :: r => (0xA0 ≤ c1 && c1 ≤ 0xBF) && isUtf8Cont c2 && utf8Valid r
      | _ => false
    else if (0xE1 ≤ b && b ≤ 0xEC) || b = 0xEE || b = 0xEF then
      match rest with
      | c1 :: c2 :: r => isUtf8Cont c1 && isUtf8Cont c2 && utf8Valid r
      | _ => false
    else if b = 0xED then
      match rest with
      | c1 :: c2 :: r => (0x80 ≤ c1 && c1 ≤ 0x9F) && isUtf8Cont c2 && utf8Valid r
      | _ => false
    else if b = 0xF0 then
      match rest with
      | c1 :: c2 :: c3 :: r =>
        (0x90 ≤ c1 && c1 ≤ 0xBF) && isUtf8Cont c2 && isUtf8Cont c3 && utf8Valid r
      | _ => false
    else if 0xF1 ≤ b && b ≤ 0xF3 then
      match rest with
      | c1 :: c2 :: c3 :: r =>
        isUtf8Cont c1 && isUtf8Cont c2 && isUtf8Cont c3 && utf8Valid r
      | _ => false
    else if b = 0xF4 then
      match rest with
      | c1 :: c2 :: c3 :: r =>
        (0x80 ≤ c1 && c1 ≤ 0x8F) && isUtf8Cont c2 && isUtf8Cont c3 && utf8Valid r
      | _ => false
    else false

/-- Model of `Chunk::data_as_string`: copies the data bytes and calls
`String::from_utf8(v).expect(..)`.  The `expect` PANICS on invalid UTF-8
(modelled as `none`); on valid UTF-8 it returns `Ok` of the text (modelled
as the byte list itself). -/
def Chunk.data_as_string (c : Chunk) : Option (List Nat) :=
  if utf8Valid c.chunk_data then some c.chunk_data else none

/-- The distinct failure values of `Chunk::try_from` (src/chunk.rs), one
constructor per `return Err`/`?` site:
`tooShort` ("chunk is too short"), `lengthOverflow` ("length exceeds max size
of u32"), `typeDecode` (the propagated `ChunkTypeDecodingError`),
`invalidTypeCode` ("chunk type not valid"), `lengthMismatch` ("length does not
match chunk_data length"), `crcBytesSliceError` (the `TryFromSliceError`
propagated by `crc_bytes.as_slice().try_into()?` when the leftover bytes are
not exactly 4) and `crcMismatch` ("expected crc does not match the actual
crc"). -/
inductive ChunkError where
  | tooShort
  | lengthOverflow
  | typeDecode (e : ChunkTypeDecodingError)
  | invalidTypeCode
  | lengthMismatch
  | crcBytesSliceError
  | crcMismatch
deriving DecidableEq, Repr

/-- The byte-collection loop of `Chunk::try_from` (chunk.rs lines 111-125).
The counter `i` is a `u32` in the source (it unifies with `8 + len : u32`),
so each increment wraps: `i` is carried as a `Nat` kept below `2 ^ 32` by an
explicit `% 2 ^ 32`.  The caller passes the bound `8 + len` already reduced
`% 2 ^ 32`, as the `u32` addition in the source wraps (release semantics).
A byte is pushed onto `v` (first component) when `8 ≤ i < bound`, otherwise
onto `crc_bytes` (second component) when `bound ≤ i`, otherwise skipped. -/
def chunkLoop (bound : Nat) : Nat → List Nat → List Nat × List Nat
  | _, [] => ([], [])
  | i, byte :: rest =>
    if 8 ≤ i ∧ i < bound then
      (byte :: (chunkLoop bound ((i + 1) % 2 ^ 32) rest).1,
       (chunkLoop bound ((i + 1) % 2 ^ 32) rest).2)
    else if bound ≤ i then
      ((chunkLoop bound ((i + 1) % 2 ^ 32) rest).1,
       byte :: (chunkLoop bound ((i + 1) % 2 ^ 32) rest).2)
    else chunkLoop bound ((i + 1) % 2 ^ 32) rest

/-- Model of `impl TryFrom<&[u8]> for Chunk`.  The byte-collection loop is
`chunkLoop` with the wrapped `u32` bound `(8 + len) % 2 ^ 32` and counter
start `0`, faithful to the source where `i` and `8 + len` are `u32`.  The
two `.unwrap()` calls on slice-to-array conversions are modelled by the
`none` branches (a `none` result is a panic of the Rust code). -/
def Chunk.tryFrom (chunk : List Nat) : Option (Except ChunkError Chunk) :=
  if chunk.length < 12 then some (Except.error ChunkError.tooShort)
  else if (chunk.take 4).length ≠ 4 then none
  else if from_be_bytes ([0, 0, 0, 0] ++ chunk.take 4) > 2 ^ 32 - 1 then
    some (Except.error ChunkError.lengthOverflow)
  else if ((chunk.drop 4).take 4).length ≠ 4 then none
  else
    match ChunkType.tryFrom ((chunk.drop 4).take 4) with
    | Except.error e => some (Except.error (ChunkError.typeDecode e))
    | Except.ok chunk_type_fin =>
      if !chunk_type_fin.is_valid then some (Except.error ChunkError.invalidTypeCode)
      else if (chunkLoop ((8 + from_be_bytes (chunk.take 4)) % 2 ^ 32) 0 chunk).1.length
          ≠ from_be_bytes (chunk.take 4) then
        some (Except.error ChunkError.lengthMismatch)
      else if (chunkLoop ((8 + from_be_bytes (chunk.take 4)) % 2 ^ 32) 0 chunk).2.length
          ≠ 4 then
        some (Except.error ChunkError.crcBytesSliceError)
      else if checksum_ieee ((chunk.drop 4).take 4
            ++ (chunkLoop ((8 + from_be_bytes (chunk.take 4)) % 2 ^ 32) 0 chunk).1)
          ≠ from_be_bytes (chunkLoop ((8 + from_be_bytes (chunk.take 4)) % 2 ^ 32) 0 chunk).2 then
        some (Except.error ChunkError.crcMismatch)
      else
        some (Except.ok
          { length := from_be_bytes (chunk.take 4)
            chunk_type := chunk_type_fin
            chunk_data := (chunkLoop ((8 + from_be_bytes (chunk.take 4)) % 2 ^ 32) 0 chunk).1
            crc := checksum_ieee ((chunk.drop 4).take 4
              ++ (chunkLoop ((8 + from_be_bytes (chunk.take 4)) % 2 ^ 32) 0 chunk).1) })

/-- Decidable equality for `Except`, so that parse results can be compared
by evaluation. -/
instance instDecEqExcept {ε α : Type} [DecidableEq ε] [DecidableEq α] :
    DecidableEq (Except ε α) := fun a b =>
  match a, b with
  | Except.error e₁, Except.error e₂ =>
      if h : e₁ = e₂ then Decidable.isTrue (by rw [h])
      else Decidable.isFalse (fun hc => h (Except.error.inj hc))
  | Except.error _, Except.ok _ => Decidable.isFalse (fun hc => Except.noConfusion hc)
  | Except.ok _, Except.error _ => Decidable.isFalse (fun hc => Except.noConfusion hc)
  | Except.ok a₁, Except.ok a₂ =>
      if h : a₁ = a₂ then Decidable.isTrue (by rw [h])
      else Decidable.isFalse (fun hc => h (Except.ok.inj hc))

/-- Sanity check against the repository's own test suite
(`test_new_chunk`): the CRC-32 of `"RuSt"` followed by
`"This is where your secret message will be!"` is `2882656334`. -/
theorem checksum_ieee_matches_repo_test :
    checksum_ieee
      ([82, 117, 83, 116] ++
        [84, 104, 105, 115, 32, 105, 115, 32, 119, 104, 101, 114, 101, 32,
         121, 111, 117, 114, 32, 115, 101, 99, 114, 101, 116, 32, 109, 101,
         115, 115, 97, 103, 101, 32, 119, 105, 108, 108, 32, 98, 101, 33])
      = 2882656334 := by decide

/-! ## Helper lemmas -/

theorem from_be_bytes_append_zeros (l : List Nat) :
    from_be_bytes ([0, 0, 0, 0] ++ l) = from_be_bytes l := by
  simp [from_be_bytes, List.foldl_append]

theorem from_be_bytes_lt (l : List Nat) (h4 : l.length = 4)
    (hb : ∀ x ∈ l, x < 256) : from_be_bytes l < 2 ^ 32 := by
  rcases l with _ | ⟨a, _ | ⟨b, _ | ⟨c, _ | ⟨d, _ | ⟨e, l⟩⟩⟩⟩⟩ <;> simp at h4
  simp only [List.mem_cons, List.not_mem_nil, or_false, forall_eq_or_imp, forall_eq] at hb
  simp only [from_be_bytes, List.foldl]
  omega

theorem from_be_bytes_to_be (n : Nat) (h : n < 2 ^ 32) :
    from_be_bytes (u32_to_be_bytes n) = n := by
  simp only [u32_to_be_bytes, from_be_bytes, List.foldl]
  omega

theorem u32_to_be_bytes_from_be (l : List Nat) (h4 : l.length = 4)
    (hb : ∀ x ∈ l, x < 256) : u32_to_be_bytes (from_be_bytes l) = l := by
  rcases l with _ | ⟨a, _ | ⟨b, _ | ⟨c, _ | ⟨d, _ | ⟨e, l⟩⟩⟩⟩⟩ <;> simp at h4
  simp only [List.mem_cons, List.not_mem_nil, or_false, forall_eq_or_imp, forall_eq] at hb
  simp only [u32_to_be_bytes, from_be_bytes, List.foldl, List.cons.injEq, and_true]
  refine ⟨?_, ?_, ?_, ?_⟩ <;> omega

theorem u32_to_be_bytes_length (n : Nat) : (u32_to_be_bytes n).length = 4 := rfl

theorem u32_to_be_bytes_mem_lt (n : Nat) : ∀ x ∈ u32_to_be_bytes n, x < 256 := by
  simp only [u32_to_be_bytes, List.mem_cons, List.not_mem_nil, or_false,
    forall_eq_or_imp, forall_eq]
  refine ⟨?_, ?_, ?_, ?_⟩ <;> exact Nat.mod_lt _ (by omega)

theorem crc32Step_lt (c : Nat) (h : c < 2 ^ 32) : crc32Step c < 2 ^ 32 := by
  unfold crc32Step
  split
  · exact Nat.xor_lt_two_pow (by omega) (by decide)
  · omega

theorem crc32Bits_lt (n c : Nat) (h : c < 2 ^ 32) : crc32Bits n c < 2 ^ 32 := by
  induction n generalizing c with
  | zero => exact h
  | succ k ih => exact ih _ (crc32Step_lt c h)

theorem checksum_ieee_lt (bs : List Nat) : checksum_ieee bs < 2 ^ 32 := by
  unfold checksum_ieee
  refine Nat.xor_lt_two_pow ?_ (by decide)
  have : ∀ (l : List Nat) (c : Nat), c < 2 ^ 32 →
      l.foldl (fun c b => crc32Bits 8 (c ^^^ b % 256)) c < 2 ^ 32 := by
    intro l
    induction l with
    | nil => intro c hc; exact hc
    | cons b t ih =>
      intro c hc
      exact ih _ (crc32Bits_lt 8 _ (Nat.xor_lt_two_pow hc
        (lt_of_lt_of_le (Nat.mod_lt _ (by omega)) (by norm_num))))
  exact this bs _ (by decide)

theorem chunkType_tryFrom_ok (l : List Nat)
    (h : ∀ x ∈ l, is_ascii_alphabetic x = true) :
    ChunkType.tryFrom l = Except.ok ⟨l⟩ := by
  unfold ChunkType.tryFrom
  have hf : l.find? (fun b => !(is_ascii_uppercase b || is_ascii_lowercase b)) = none := by
    rw [List.find?_eq_none]
    intro x hx
    have hax := h x hx
    simp only [is_ascii_alphabetic] at hax
    simp [hax]
  rw [hf]

theorem chunkType_tryFrom_ok_bytes (l : List Nat) (t : ChunkType)
    (h : ChunkType.tryFrom l = Except.ok t) : t = ⟨l⟩ := by
  unfold ChunkType.tryFrom at h
  cases hf : l.find? (fun b => !(is_ascii_uppercase b || is_ascii_lowercase b)) <;>
    rw [hf] at h <;> simp at h
  exact h.symm

theorem chunk_new_length_def (t : ChunkType) (d : List Nat) :
    (Chunk.new t d).length = d.length % 2 ^ 32 := rfl

theorem chunkLoop_fst_nil_of_bound_le (bound : Nat) (hb : bound ≤ 8) :
    ∀ (l : List Nat) (i : Nat), (chunkLoop bound i l).1 = [] := by
  intro l
  induction l with
  | nil => intro i; rfl
  | cons byte t ih =>
    intro i
    simp only [chunkLoop]
    split
    · next h => omega
    · split
      · exact ih _
      · exact ih _

theorem chunkLoop_no_wrap (bound : Nat) (l : List Nat) :
    ∀ (i : Nat), i + l.length ≤ 2 ^ 32 →
      chunkLoop bound i l
        = ((l.drop (8 - i)).take (bound - max 8 i), l.drop (bound - i)) := by
  induction l with
  | nil => intro i _; simp [chunkLoop]
  | cons byte t ih =>
    intro i hw
    simp only [List.length_cons] at hw
    by_cases hi : i + 1 = 2 ^ 32
    · have ht : t = [] := List.length_eq_zero.mp (by omega)
      subst ht
      simp only [chunkLoop]
      split
      · next h1 =>
        have e1 : 8 - i = 0 := by omega
        have e2 : bound - max 8 i = (bound - (i + 1)) + 1 := by omega
        have e3 : bound - i = (bound - (i + 1)) + 1 := by omega
        simp [e1, e2, e3]
      · split
        · next h1 h2 =>
          have e1 : bound - max 8 i = 0 := by omega
          have e2 : bound - i = 0 := by omega
          by_cases hi8 : 8 ≤ i
          · have e3 : 8 - i = 0 := by omega
            simp [e1, e2, e3]
          · have e3 : 8 - i = (8 - (i + 1)) + 1 := by omega
            simp [e1, e2, e3]
        · next h1 h2 =>
          have hib : i < bound := by omega
          have hi8 : i < 8 := by omega
          have e1 : 8 - i = (8 - (i + 1)) + 1 := by omega
          have e2 : max 8 i = 8 := by omega
          have e3 : bound - i = (bound - (i + 1)) + 1 := by omega
          simp [e1, e2, e3]
    · have hmod : (i + 1) % 2 ^ 32 = i + 1 := Nat.mod_eq_of_lt (by omega)
      have iht := ih (i + 1) (by omega)
      simp only [chunkLoop, hmod, iht]
      split
      · next h1 =>
        have e1 : 8 - i = 0 := by omega
        have e2 : 8 - (i + 1) = 0 := by omega
        have e3 : bound - max 8 i = (bound - max 8 (i + 1)) + 1 := by omega
        have e4 : bound - i = (bound - (i + 1)) + 1 := by omega
        simp [e1, e2, e3, e4]
      · split
        · next h1 h2 =>
          have e1 : bound - max 8 i = 0 := by omega
          have e2 : bound - max 8 (i + 1) = 0 := by omega
          have e3 : bound - i = 0 := by omega
          have e4 : bound - (i + 1) = 0 := by omega
          by_cases hi8 : 8 ≤ i
          · have e5 : 8 - i = 0 := by omega
            have e6 : 8 - (i + 1) = 0 := by omega
            simp [e1, e2, e3, e4, e5, e6]
          · have e5 : 8 - i = (8 - (i + 1)) + 1 := by omega
            simp [e1, e2, e3, e4, e5]
        · next h1 h2 =>
          have hib : i < bound := by omega
          have hi8 : i < 8 := by omega
          have e1 : 8 - i = (8 - (i + 1)) + 1 := by omega
          have e2 : max 8 i = 8 := by omega
          have e3 : max 8 (i + 1) = 8 := by omega
          have e4 : bound - i = (bound - (i + 1)) + 1 := by omega
          simp [e1, e2, e3, e4]

theorem chunkLoop_std (len : Nat) (b : List Nat) (hlen : 8 + len < 2 ^ 32)
    (hb : b.length ≤ 2 ^ 32) :
    chunkLoop ((8 + len) % 2 ^ 32) 0 b = ((b.drop 8).take len, b.drop (8 + len)) := by
  rw [Nat.mod_eq_of_lt hlen, chunkLoop_no_wrap (8 + len) b 0 (by omega)]
  have e1 : 8 - 0 = 8 := rfl
  have e2 : (8 + len) - max 8 0 = len := by omega
  have e3 : (8 + len) - 0 = 8 + len := rfl
  rw [e1, e2, e3]

theorem chunkLoop_append (bound : Nat) (l₁ l₂ : List Nat) :
    ∀ i, i < 2 ^ 32 →
      chunkLoop bound i (l₁ ++ l₂)
        = ((chunkLoop bound i l₁).1 ++ (chunkLoop bound ((i + l₁.length) % 2 ^ 32) l₂).1,
           (chunkLoop bound i l₁).2 ++ (chunkLoop bound ((i + l₁.length) % 2 ^ 32) l₂).2) := by
  induction l₁ with
  | nil =>
    intro i hi
    have hmod : (i + ([] : List Nat).length) % 2 ^ 32 = i := by
      simp only [List.length_nil, Nat.add_zero]
      omega
    rw [List.nil_append, hmod]
    simp [chunkLoop]
  | cons byte t ih =>
    intro i hi
    have iht := ih ((i + 1) % 2 ^ 32) (Nat.mod_lt _ (by omega))
    have hidx : ((i + 1) % 2 ^ 32 + t.length) % 2 ^ 32 = (i + (byte :: t).length) % 2 ^ 32 := by
      rw [Nat.mod_add_mod, List.length_cons]
      have e : i + 1 + t.length = i + (t.length + 1) := by omega
      rw [e]
    rw [hidx] at iht
    by_cases h1 : 8 ≤ i ∧ i < bound
    · simp only [List.cons_append, chunkLoop, List.append_eq, if_pos h1]
      rw [iht]
    · by_cases h2 : bound ≤ i
      · simp only [List.cons_append, chunkLoop, List.append_eq, if_neg h1, if_pos h2]
        rw [iht]
      · simp only [List.cons_append, chunkLoop, List.append_eq, if_neg h1, if_neg h2]
        exact iht

/-! ## Claim theorems -/

/-- Claim C9: `is_valid` coincides with `is_reserved_bit_valid` (bit 5 of
byte index 2 clear) on every `ChunkType`; constructing from the text
`"Rust"` (bytes `[82, 117, 115, 116]`) succeeds but the result is not valid,
while `"RuSt"` (bytes `[82, 117, 83, 116]`) succeeds and is valid. -/
theorem chunkType_is_valid_semantics :
    (∀ t : ChunkType, t.is_valid = t.is_reserved_bit_valid) ∧
    (∃ t : ChunkType, ChunkType.fromStr [82, 117, 115, 116] = Except.ok t ∧
      t.is_valid = false) ∧
    (∃ t : ChunkType, ChunkType.fromStr [82, 117, 83, 116] = Except.ok t ∧
      t.is_valid = true) :=
  ⟨fun _ => rfl,
   ⟨⟨[82, 117, 115, 116]⟩, by decide, by decide⟩,
   ⟨⟨[82, 117, 83, 116]⟩, by decide, by decide⟩⟩

/-- Claim C1 (code bug): on a chunk whose data bytes are not valid UTF-8 —
here data `[255]` — `Chunk::data_as_string` PANICS (its `expect` fires;
modelled by `none`) instead of returning an `InvalidEncoding` error value;
on valid UTF-8 data it returns the text. -/
theorem data_as_string_panics_on_invalid_utf8 :
    Chunk.data_as_string (Chunk.new ⟨[82, 117, 83, 116]⟩ [255]) = none ∧
    Chunk.data_as_string (Chunk.new ⟨[82, 117, 83, 116]⟩ [104, 105])
      = some [104, 105] :=
  ⟨by decide, by decide⟩

/-- Claim C8 counterexample: `Chunk::new` on a buffer of length `2 ^ 32`
is not rejected — it returns a chunk whose `length` field is the truncated
value `0`, while the buffer's actual byte length is `2 ^ 32`. -/
theorem chunk_new_truncates_big_length :
    (Chunk.new ⟨[82, 117, 83, 116]⟩ (List.replicate (2 ^ 32) 0)).length = 0 ∧
    (List.replicate (2 ^ 32) 0).length = 2 ^ 32 := by
  have hrep : (List.replicate (2 ^ 32) (0 : Nat)).length = 2 ^ 32 :=
    List.length_replicate (2 ^ 32) 0
  have h1 := chunk_new_length_def ⟨[82, 117, 83, 116]⟩ (List.replicate (2 ^ 32) 0)
  exact ⟨by rw [h1, hrep, Nat.mod_self], hrep⟩

/-- Claim C8 (amended): the chunk returned by `Chunk::new(t, d)` has a
`length` field equal to the byte length of `d` reduced modulo `2 ^ 32`
(the `as u32` cast truncates instead of rejecting), hence equal to the
actual byte length whenever that length fits in 32 bits; its `crc` field is
CRC-32 (IEEE) over the 4 type bytes followed by the data bytes. -/
theorem chunk_new_fields (t : ChunkType) (d : List Nat) :
    (Chunk.new t d).length = d.length % 2 ^ 32 ∧
    (d.length < 2 ^ 32 → (Chunk.new t d).length = d.length) ∧
    (Chunk.new t d).crc = checksum_ieee (t.bytes ++ d) :=
  ⟨rfl, fun h => Nat.mod_eq_of_lt h, rfl⟩

/-- Witness for `chunk_new_fields` at the type code `"RuSt"` and data
`[7, 8]`. -/
theorem chunk_new_fields_witness :
    (Chunk.new ⟨[82, 117, 83, 116]⟩ [7, 8]).length = 2 ∧
    (Chunk.new ⟨[82, 117, 83, 116]⟩ [7, 8]).crc
      = checksum_ieee ([82, 117, 83, 116] ++ [7, 8]) :=
  ⟨(chunk_new_fields ⟨[82, 117, 83, 116]⟩ [7, 8]).2.1 (by decide),
   (chunk_new_fields ⟨[82, 117, 83, 116]⟩ [7, 8]).2.2⟩

/-- Claim C10: the length-overflow branch of `Chunk::try_from` is
unreachable — for every input byte list, the 4-byte big-endian length field
zero-extended to 64 bits never exceeds `u32::MAX`, so parsing never returns
the `lengthOverflow` error. -/
theorem tryFrom_never_lengthOverflow (b : List Nat) (hb : ∀ x ∈ b, x < 256) :
    Chunk.tryFrom b ≠ some (Except.error ChunkError.lengthOverflow) := by
  intro h
  unfold Chunk.tryFrom at h
  split at h
  · simp at h
  next h12 =>
    split at h
    · simp at h
    next ht4 =>
      have hlt : from_be_bytes ([0, 0, 0, 0] ++ b.take 4) ≤ 2 ^ 32 - 1 := by
        rw [from_be_bytes_append_zeros]
        have := from_be_bytes_lt (b.take 4) (by omega)
          (fun x hx => hb x (List.mem_of_mem_take hx))
        omega
      rw [if_neg (by omega)] at h
      split at h
      · simp at h
      · split at h
        · simp at h
        · split at h
          · simp at h
          · split at h
            · simp at h
            · split at h
              · simp at h
              · split at h <;> simp at h

/-- Witness for `tryFrom_never_lengthOverflow` at the empty input. -/
theorem tryFrom_never_lengthOverflow_witness :
    (∀ x ∈ ([] : List Nat), x < 256) ∧
    Chunk.tryFrom [] ≠ some (Except.error ChunkError.lengthOverflow) :=
  ⟨by decide, tryFrom_never_lengthOverflow [] (by decide)⟩

/-- Claim C2: `Chunk::try_from` is a total function of its input: for every
byte list it returns `some` result — a `Chunk` or a typed error value — and
never `none`, i.e. the two `unwrap` panic sites can never fire.  (Purity and
in-bounds access are structural properties of the embedding.) -/
theorem tryFrom_total_no_panic (b : List Nat) : Chunk.tryFrom b ≠ none := by
  intro h
  unfold Chunk.tryFrom at h
  split at h
  · simp at h
  next h12 =>
    have ht4 : (b.take 4).length = 4 := by simp; omega
    have hct4 : ((b.drop 4).take 4).length = 4 := by simp; omega
    rw [if_neg (by omega)] at h
    split at h
    · simp at h
    · rw [if_neg (by omega)] at h
      split at h
      · simp at h
      · split at h
        · simp at h
        · split at h
          · simp at h
          · split at h
            · simp at h
            · split at h <;> simp at h

/-- Claim C7: asymmetric validity gating.  Parsing a 12-byte-or-longer input
whose 4 type bytes are ASCII alphabetic but whose type code fails
`is_valid()` (reserved bit set) returns the `invalidTypeCode` error; and
`Chunk::new` succeeds unconditionally for every type code and data buffer —
its result is determined by `t` and `d` alone, with no `is_valid()`
check. -/
theorem tryFrom_invalid_type_gating (b : List Nat)
    (hb : ∀ x ∈ b, x < 256) (h12 : 12 ≤ b.length)
    (halpha : ∀ x ∈ (b.drop 4).take 4, is_ascii_alphabetic x = true)
    (hinvalid : ChunkType.is_valid ⟨(b.drop 4).take 4⟩ = false) :
    Chunk.tryFrom b = some (Except.error ChunkError.invalidTypeCode) ∧
    ∀ (t : ChunkType) (d : List Nat),
      Chunk.new t d = { length := d.length % 2 ^ 32, chunk_type := t,
                        chunk_data := d, crc := checksum_ieee (t.bytes ++ d) } := by
  refine ⟨?_, fun t d => rfl⟩
  unfold Chunk.tryFrom
  have ht4 : (b.take 4).length = 4 := by simp; omega
  have hct4 : ((b.drop 4).take 4).length = 4 := by simp; omega
  have hlt : from_be_bytes ([0, 0, 0, 0] ++ b.take 4) ≤ 2 ^ 32 - 1 := by
    rw [from_be_bytes_append_zeros]
    have := from_be_bytes_lt (b.take 4) ht4 (fun x hx => hb x (List.mem_of_mem_take hx))
    omega
  rw [if_neg (by omega), if_neg (by omega), if_neg (by omega), if_neg (by omega),
    chunkType_tryFrom_ok _ halpha]
  simp [hinvalid]

/-- Witness for `tryFrom_invalid_type_gating`: a 12-byte frame with length
field 0 and the alphabetic-but-invalid type code `"Rust"`. -/
theorem tryFrom_invalid_type_gating_witness :
    12 ≤ ([0, 0, 0, 0, 82, 117, 115, 116, 0, 0, 0, 0] : List Nat).length ∧
    Chunk.tryFrom [0, 0, 0, 0, 82, 117, 115, 116, 0, 0, 0, 0]
      = some (Except.error ChunkError.invalidTypeCode) :=
  ⟨by decide,
   (tryFrom_invalid_type_gating [0, 0, 0, 0, 82, 117, 115, 116, 0, 0, 0, 0]
      (by decide) (by decide) (by decide) (by decide)).1⟩

/-- Claim C6: CRC enforcement.  On an input that passes the length check,
whose 4 type bytes are alphabetic and reserved-bit valid, and whose total
size is exactly `12 +` the declared length — with the frame at most
`2 ^ 32` bytes, the inputs on which the `u32` loop bookkeeping lets the
framing checks pass — parsing fails with `crcMismatch` exactly when the
CRC-32 recomputed over type bytes ++ data bytes differs from the big-endian
on-wire CRC; when they are equal, parsing succeeds and the returned chunk's
`crc` field is the recomputed value. -/
theorem tryFrom_crc_enforcement (b : List Nat) (hb : ∀ x ∈ b, x < 256)
    (hn : b.length ≤ 2 ^ 32)
    (hframe : b.length = 12 + from_be_bytes (b.take 4))
    (halpha : ∀ x ∈ (b.drop 4).take 4, is_ascii_alphabetic x = true)
    (hvalid : ChunkType.is_valid ⟨(b.drop 4).take 4⟩ = true) :
    (checksum_ieee ((b.drop 4).take 4 ++ (b.drop 8).take (from_be_bytes (b.take 4)))
        ≠ from_be_bytes (b.drop (8 + from_be_bytes (b.take 4))) →
      Chunk.tryFrom b = some (Except.error ChunkError.crcMismatch)) ∧
    (checksum_ieee ((b.drop 4).take 4 ++ (b.drop 8).take (from_be_bytes (b.take 4)))
        = from_be_bytes (b.drop (8 + from_be_bytes (b.take 4))) →
      Chunk.tryFrom b = some (Except.ok
        { length := from_be_bytes (b.take 4)
          chunk_type := ⟨(b.drop 4).take 4⟩
          chunk_data := (b.drop 8).take (from_be_bytes (b.take 4))
          crc := checksum_ieee ((b.drop 4).take 4
            ++ (b.drop 8).take (from_be_bytes (b.take 4))) })) := by
  have h12 : ¬ b.length < 12 := by omega
  have ht4 : (b.take 4).length = 4 := by simp; omega
  have hct4 : ((b.drop 4).take 4).length = 4 := by simp; omega
  have hlt : from_be_bytes ([0, 0, 0, 0] ++ b.take 4) ≤ 2 ^ 32 - 1 := by
    rw [from_be_bytes_append_zeros]
    have := from_be_bytes_lt (b.take 4) ht4 (fun x hx => hb x (List.mem_of_mem_take hx))
    omega
  have hloop := chunkLoop_std (from_be_bytes (b.take 4)) b (by omega) hn
  have hvlen : ((b.drop 8).take (from_be_bytes (b.take 4))).length
      = from_be_bytes (b.take 4) := by simp; omega
  have hcrc4 : (b.drop (8 + from_be_bytes (b.take 4))).length = 4 := by simp; omega
  have key : ∀ r : Except ChunkError Chunk,
      (if checksum_ieee ((b.drop 4).take 4 ++ (b.drop 8).take (from_be_bytes (b.take 4)))
          ≠ from_be_bytes (b.drop (8 + from_be_bytes (b.take 4))) then
        some (Except.error ChunkError.crcMismatch)
      else
        some (Except.ok
          { length := from_be_bytes (b.take 4)
            chunk_type := (⟨(b.drop 4).take 4⟩ : ChunkType)
            chunk_data := (b.drop 8).take (from_be_bytes (b.take 4))
            crc := checksum_ieee ((b.drop 4).take 4
              ++ (b.drop 8).take (from_be_bytes (b.take 4))) })) = some r →
      Chunk.tryFrom b = some r := by
    intro r hr
    unfold Chunk.tryFrom
    rw [if_neg h12, if_neg (by omega), if_neg (by omega), if_neg (by omega), hloop,
      chunkType_tryFrom_ok _ halpha]
    simpa [hvalid, hvlen, hcrc4] using hr
  constructor
  · intro hne
    exact key _ (by rw [if_pos hne])
  · intro heq
    exact key _ (by rw [if_neg (by simp [heq])])

/-- Witness for `tryFrom_crc_enforcement`: the 12-byte frame with length 0,
type `"RuSt"` and the correct on-wire CRC `[212, 132, 9, 60]`. -/
theorem tryFrom_crc_enforcement_witness :
    ([0, 0, 0, 0, 82, 117, 83, 116, 212, 132, 9, 60] : List Nat).length
      = 12 + from_be_bytes (([0, 0, 0, 0, 82, 117, 83, 116, 212, 132, 9, 60]
          : List Nat).take 4) ∧
    Chunk.tryFrom [0, 0, 0, 0, 82, 117, 83, 116, 212, 132, 9, 60]
      = some (Except.ok
          { length := 0
            chunk_type := ⟨[82, 117, 83, 116]⟩
            chunk_data := []
            crc := 3565422908 }) := by
  constructor
  · decide
  · have h := (tryFrom_crc_enforcement [0, 0, 0, 0, 82, 117, 83, 116, 212, 132, 9, 60]
      (by decide) (by decide) (by decide) (by decide) (by decide)).2 (by decide)
    rw [h]
    decide

/-- Claim C5 counterexample: on the 13-byte input below (declared length 0,
valid type code, one extra trailing byte) parsing fails with the slice
conversion error coming from `crc_bytes.as_slice().try_into()?`, not with
the `lengthMismatch` error the claim names. -/
theorem tryFrom_trailing_byte_error :
    Chunk.tryFrom [0, 0, 0, 0, 82, 117, 83, 116, 212, 132, 9, 60, 0]
      ≠ some (Except.error ChunkError.lengthMismatch) ∧
    Chunk.tryFrom [0, 0, 0, 0, 82, 117, 83, 116, 212, 132, 9, 60, 0]
      = some (Except.error ChunkError.crcBytesSliceError) :=
  ⟨by decide, by decide⟩

/-- Claim C5 (amended): exact frame consumption, stated for slices of at
most `2 ^ 32` bytes (beyond that the wrapped `u32` loop counter changes
behavior; see the claim C4 counterexample).  Inputs shorter than 12 bytes
fail with `tooShort`.  On an input of at least 12 bytes whose type bytes
are alphabetic and reserved-bit valid, with `L` the declared big-endian
length: parsing fails with `lengthMismatch` when fewer than `L` data bytes
can be collected — total length below `8 + L`, or `2 ^ 32 ≤ 8 + L` so the
wrapped `u32` bound leaves the data bucket empty; when `8 + L < 2 ^ 32` it
fails with the CRC-slice conversion error — not `lengthMismatch` — when the
bytes left after the data are not exactly 4 (a CRC truncated below 4 bytes,
or extra trailing bytes); and any successful parse consumes exactly
`12 + L` bytes. -/
theorem tryFrom_frame_consumption (b : List Nat) (hb : ∀ x ∈ b, x < 256)
    (hn : b.length ≤ 2 ^ 32) :
    (b.length < 12 → Chunk.tryFrom b = some (Except.error ChunkError.tooShort)) ∧
    (12 ≤ b.length →
      (∀ x ∈ (b.drop 4).take 4, is_ascii_alphabetic x = true) →
      ChunkType.is_valid ⟨(b.drop 4).take 4⟩ = true →
      ((b.length < 8 + from_be_bytes (b.take 4) ∨ 2 ^ 32 ≤ 8 + from_be_bytes (b.take 4) →
          Chunk.tryFrom b = some (Except.error ChunkError.lengthMismatch)) ∧
       (8 + from_be_bytes (b.take 4) ≤ b.length → 8 + from_be_bytes (b.take 4) < 2 ^ 32 →
          b.length ≠ 12 + from_be_bytes (b.take 4) →
          Chunk.tryFrom b = some (Except.error ChunkError.crcBytesSliceError)) ∧
       (∀ c : Chunk, Chunk.tryFrom b = some (Except.ok c) →
          b.length = 12 + from_be_bytes (b.take 4)))) := by
  refine ⟨fun hlt12 => ?_, fun h12 halpha hvalid => ?_⟩
  · unfold Chunk.tryFrom
    rw [if_pos hlt12]
  · have ht4 : (b.take 4).length = 4 := by simp; omega
    have hct4 : ((b.drop 4).take 4).length = 4 := by simp; omega
    have hLlt : from_be_bytes (b.take 4) < 2 ^ 32 :=
      from_be_bytes_lt (b.take 4) ht4 (fun x hx => hb x (List.mem_of_mem_take hx))
    have hlt : from_be_bytes ([0, 0, 0, 0] ++ b.take 4) ≤ 2 ^ 32 - 1 := by
      rw [from_be_bytes_append_zeros]
      omega
    have hA : b.length < 8 + from_be_bytes (b.take 4) ∨
        2 ^ 32 ≤ 8 + from_be_bytes (b.take 4) →
        Chunk.tryFrom b = some (Except.error ChunkError.lengthMismatch) := by
      intro hcase
      unfold Chunk.tryFrom
      rw [if_neg (by omega), if_neg (by omega), if_neg (by omega), if_neg (by omega),
        chunkType_tryFrom_ok _ halpha]
      rcases Nat.lt_or_ge (8 + from_be_bytes (b.take 4)) (2 ^ 32) with hnw | hw
      · have hlt8 : b.length < 8 + from_be_bytes (b.take 4) := by omega
        rw [chunkLoop_std (from_be_bytes (b.take 4)) b hnw hn]
        simp only [hvalid]
        simp
        intro hcontra
        exact absurd hcontra (by omega)
      · have hv := chunkLoop_fst_nil_of_bound_le
          ((8 + from_be_bytes (b.take 4)) % 2 ^ 32) (by omega) b 0
        rw [hv]
        simp only [hvalid]
        simp
        intro hcontra
        exact absurd hcontra (by omega)
    have hB : 8 + from_be_bytes (b.take 4) ≤ b.length →
        8 + from_be_bytes (b.take 4) < 2 ^ 32 →
        b.length ≠ 12 + from_be_bytes (b.take 4) →
        Chunk.tryFrom b = some (Except.error ChunkError.crcBytesSliceError) := by
      intro hge hnw hne
      unfold Chunk.tryFrom
      rw [if_neg (by omega), if_neg (by omega), if_neg (by omega), if_neg (by omega),
        chunkType_tryFrom_ok _ halpha, chunkLoop_std (from_be_bytes (b.take 4)) b hnw hn]
      have hveq : ((b.drop 8).take (from_be_bytes (b.take 4))).length
          = from_be_bytes (b.take 4) := by simp; omega
      simp [hvalid, hveq]
      intro hcontra
      exact absurd hcontra (by omega)
    refine ⟨hA, hB, fun c hok => ?_⟩
    by_contra hne
    rcases Nat.lt_or_ge (8 + from_be_bytes (b.take 4)) (2 ^ 32) with hnw | hw
    · rcases Nat.lt_or_ge b.length (8 + from_be_bytes (b.take 4)) with hlt8 | hge
      · rw [hA (Or.inl hlt8)] at hok
        simp at hok
      · rw [hB hge hnw hne] at hok
        simp at hok
    · rw [hA (Or.inr hw)] at hok
      simp at hok

/-- Witness for `tryFrom_frame_consumption`: a 12-byte frame whose declared
length 5 exceeds the available data, yielding `lengthMismatch`. -/
theorem tryFrom_frame_consumption_witness :
    (∀ x ∈ ([0, 0, 0, 5, 82, 117, 83, 116, 0, 0, 0, 0] : List Nat), x < 256) ∧
    Chunk.tryFrom [0, 0, 0, 5, 82, 117, 83, 116, 0, 0, 0, 0]
      = some (Except.error ChunkError.lengthMismatch) :=
  ⟨by decide,
   (((tryFrom_frame_consumption [0, 0, 0, 5, 82, 117, 83, 116, 0, 0, 0, 0]
      (by decide) (by decide)).2 (by decide) (by decide) (by decide)).1
      (Or.inl (by decide)))⟩

theorem frame_reassemble (b : List Nat) (len : Nat) :
    b.take 4 ++ ((b.drop 4).take 4 ++ ((b.drop 8).take len ++ b.drop (8 + len))) = b := by
  have h1 : (b.drop 8).drop len = b.drop (8 + len) := List.drop_drop len 8 b
  have h2 : (b.drop 4).drop 4 = b.drop 8 := by rw [List.drop_drop]
  rw [← h1, List.take_append_drop, ← h2, List.take_append_drop, List.take_append_drop]

theorem tryFrom_new_append (t : ChunkType) (d extra : List Nat)
    (ht4 : t.bytes.length = 4)
    (halpha : ∀ x ∈ t.bytes, is_ascii_alphabetic x = true)
    (hvalid : t.is_valid = true)
    (hd : d.length ≤ 2 ^ 32 - 12)
    (hextra : chunkLoop ((8 + d.length) % 2 ^ 32) ((12 + d.length) % 2 ^ 32) extra
        = ([], [])) :
    Chunk.tryFrom ((Chunk.new t d).as_bytes ++ extra)
      = some (Except.ok (Chunk.new t d)) := by
  have hmod : d.length % 4294967296 = d.length := Nat.mod_eq_of_lt (by omega)
  have hB : (Chunk.new t d).as_bytes
      = u32_to_be_bytes d.length ++ (t.bytes ++ (d
          ++ u32_to_be_bytes (checksum_ieee (t.bytes ++ d)))) := by
    simp [Chunk.as_bytes, Chunk.new, Chunk.data, hmod]
  have hBlen : (Chunk.new t d).as_bytes.length = 12 + d.length := by
    rw [hB]
    simp [u32_to_be_bytes]
    omega
  have hlen0 : ((Chunk.new t d).as_bytes ++ extra).length
      = 12 + d.length + extra.length := by
    rw [List.length_append, hBlen]
  have htake4 : ((Chunk.new t d).as_bytes ++ extra).take 4 = u32_to_be_bytes d.length := by
    rw [List.take_append_eq_append_take]
    have e0 : 4 - (Chunk.new t d).as_bytes.length = 0 := by omega
    rw [e0, List.take_zero, List.append_nil, hB,
      List.take_left' (u32_to_be_bytes_length _)]
  have hfrom : from_be_bytes (((Chunk.new t d).as_bytes ++ extra).take 4) = d.length := by
    rw [htake4]
    exact from_be_bytes_to_be _ (by omega)
  have hdrop4 : ((Chunk.new t d).as_bytes ++ extra).drop 4
      = t.bytes ++ ((d ++ u32_to_be_bytes (checksum_ieee (t.bytes ++ d))) ++ extra) := by
    rw [List.drop_append_eq_append_drop]
    have e0 : 4 - (Chunk.new t d).as_bytes.length = 0 := by omega
    rw [e0, List.drop_zero, hB, List.drop_left' (u32_to_be_bytes_length _),
      List.append_assoc]
  have hctb : (((Chunk.new t d).as_bytes ++ extra).drop 4).take 4 = t.bytes := by
    rw [hdrop4]
    exact List.take_left' ht4
  have hdrop4B : (Chunk.new t d).as_bytes.drop 4
      = t.bytes ++ (d ++ u32_to_be_bytes (checksum_ieee (t.bytes ++ d))) := by
    rw [hB]
    exact List.drop_left' (u32_to_be_bytes_length _)
  have hdrop8B : (Chunk.new t d).as_bytes.drop 8
      = d ++ u32_to_be_bytes (checksum_ieee (t.bytes ++ d)) := by
    have h2 : ((Chunk.new t d).as_bytes.drop 4).drop 4 = (Chunk.new t d).as_bytes.drop 8 := by
      rw [List.drop_drop]
    rw [← h2, hdrop4B]
    exact List.drop_left' ht4
  have hdataB : ((Chunk.new t d).as_bytes.drop 8).take d.length = d := by
    rw [hdrop8B]
    exact List.take_left' rfl
  have hcrcbB : (Chunk.new t d).as_bytes.drop (8 + d.length)
      = u32_to_be_bytes (checksum_ieee (t.bytes ++ d)) := by
    have h1 : ((Chunk.new t d).as_bytes.drop 8).drop d.length
        = (Chunk.new t d).as_bytes.drop (8 + d.length) :=
      List.drop_drop d.length 8 _
    rw [← h1, hdrop8B]
    exact List.drop_left' rfl
  have hloopB := chunkLoop_std d.length (Chunk.new t d).as_bytes (by omega) (by omega)
  have happ := chunkLoop_append ((8 + d.length) % 2 ^ 32) (Chunk.new t d).as_bytes extra 0
    (by omega)
  have hidx : (0 + (Chunk.new t d).as_bytes.length) % 2 ^ 32
      = (12 + d.length) % 2 ^ 32 := by
    rw [Nat.zero_add, hBlen]
  rw [hidx, hextra, hloopB] at happ
  have happ1 : (chunkLoop ((8 + d.length) % 2 ^ 32) 0
      ((Chunk.new t d).as_bytes ++ extra)).1 = d := by
    rw [happ]
    show ((Chunk.new t d).as_bytes.drop 8).take d.length ++ [] = d
    rw [List.append_nil]
    exact hdataB
  have happ2 : (chunkLoop ((8 + d.length) % 2 ^ 32) 0
      ((Chunk.new t d).as_bytes ++ extra)).2
      = u32_to_be_bytes (checksum_ieee (t.bytes ++ d)) := by
    rw [happ]
    show (Chunk.new t d).as_bytes.drop (8 + d.length) ++ [] = _
    rw [List.append_nil]
    exact hcrcbB
  have heta : (⟨t.bytes⟩ : ChunkType) = t := rfl
  unfold Chunk.tryFrom
  rw [if_neg (by omega), if_neg (by simp [htake4, u32_to_be_bytes]),
    if_neg (by rw [from_be_bytes_append_zeros, hfrom]; omega),
    if_neg (by rw [hctb]; omega),
    hctb, chunkType_tryFrom_ok _ halpha, heta, hfrom, happ1, happ2,
    from_be_bytes_to_be _ (checksum_ieee_lt (t.bytes ++ d))]
  simp [hvalid, Chunk.new, u32_to_be_bytes_length, hmod]

theorem tryFrom_new_wrap_fails (t : ChunkType) (d : List Nat)
    (ht4 : t.bytes.length = 4)
    (halpha : ∀ x ∈ t.bytes, is_ascii_alphabetic x = true)
    (hvalid : t.is_valid = true)
    (hd : 2 ^ 32 - 8 ≤ d.length) (hd2 : d.length < 2 ^ 32) :
    Chunk.tryFrom (Chunk.new t d).as_bytes
      = some (Except.error ChunkError.lengthMismatch) := by
  have hmod : d.length % 4294967296 = d.length := Nat.mod_eq_of_lt (by omega)
  have hB : (Chunk.new t d).as_bytes
      = u32_to_be_bytes d.length ++ (t.bytes ++ (d
          ++ u32_to_be_bytes (checksum_ieee (t.bytes ++ d)))) := by
    simp [Chunk.as_bytes, Chunk.new, Chunk.data, hmod]
  have hBlen : (Chunk.new t d).as_bytes.length = 12 + d.length := by
    rw [hB]
    simp [u32_to_be_bytes]
    omega
  have htake4 : (Chunk.new t d).as_bytes.take 4 = u32_to_be_bytes d.length := by
    rw [hB]
    exact List.take_left' (u32_to_be_bytes_length _)
  have hfrom : from_be_bytes ((Chunk.new t d).as_bytes.take 4) = d.length := by
    rw [htake4]
    exact from_be_bytes_to_be _ hd2
  have hdrop4 : (Chunk.new t d).as_bytes.drop 4
      = t.bytes ++ (d ++ u32_to_be_bytes (checksum_ieee (t.bytes ++ d))) := by
    rw [hB]
    exact List.drop_left' (u32_to_be_bytes_length _)
  have hctb : ((Chunk.new t d).as_bytes.drop 4).take 4 = t.bytes := by
    rw [hdrop4]
    exact List.take_left' ht4
  have hv := chunkLoop_fst_nil_of_bound_le ((8 + d.length) % 2 ^ 32) (by omega)
    (Chunk.new t d).as_bytes 0
  have heta : (⟨t.bytes⟩ : ChunkType) = t := rfl
  unfold Chunk.tryFrom
  rw [if_neg (by omega), if_neg (by simp [htake4, u32_to_be_bytes]),
    if_neg (by rw [from_be_bytes_append_zeros, hfrom]; omega),
    if_neg (by rw [hctb]; omega),
    hctb, chunkType_tryFrom_ok _ halpha, heta, hfrom, hv]
  simp only [hvalid]
  simp
  intro hcontra
  exact absurd hcontra.symm (by omega)

/-- Claim C3 counterexample: a data buffer of length `2 ^ 32 - 1` — within
the claim's own "representable in 32 bits" bound — whose serialized frame
is `2 ^ 32 + 11` bytes long.  The wrapped `u32` bound `8 + len` becomes 7,
the data bucket stays empty, and parsing the serialization of
`Chunk::new` fails with `lengthMismatch` instead of succeeding. -/
theorem tryFrom_as_bytes_roundtrip_big_fails :
    (List.replicate (2 ^ 32 - 1) (0 : Nat)).length < 2 ^ 32 ∧
    Chunk.tryFrom (Chunk.new ⟨[82, 117, 83, 116]⟩ (List.replicate (2 ^ 32 - 1) 0)).as_bytes
      = some (Except.error ChunkError.lengthMismatch) := by
  have hrep : (List.replicate (2 ^ 32 - 1) (0 : Nat)).length = 2 ^ 32 - 1 :=
    List.length_replicate (2 ^ 32 - 1) 0
  refine ⟨by rw [hrep]; omega, ?_⟩
  exact tryFrom_new_wrap_fails ⟨[82, 117, 83, 116]⟩ (List.replicate (2 ^ 32 - 1) 0)
    (by decide) (by decide) (by decide) (by rw [hrep]; omega) (by rw [hrep]; omega)

/-- Claim C3 (amended): round-trip law for data buffers of length at most
`2 ^ 32 - 12`, so that the whole serialized frame fits the `u32` index
arithmetic of the parser's loop.  For every well-formed, reserved-bit-valid
type code `t` (4 ASCII alphabetic bytes) and every such data buffer `d`,
parsing the serialization of `Chunk::new(t, d)` succeeds and returns a
chunk equal to `Chunk::new(t, d)` — same length, type code, data and
CRC. -/
theorem tryFrom_as_bytes_roundtrip (t : ChunkType) (d : List Nat)
    (ht4 : t.bytes.length = 4)
    (halpha : ∀ x ∈ t.bytes, is_ascii_alphabetic x = true)
    (hvalid : t.is_valid = true)
    (hd : d.length ≤ 2 ^ 32 - 12) :
    Chunk.tryFrom (Chunk.new t d).as_bytes = some (Except.ok (Chunk.new t d)) := by
  have h := tryFrom_new_append t d [] ht4 halpha hvalid hd rfl
  rwa [List.append_nil] at h

/-- Witness for `tryFrom_as_bytes_roundtrip` at type code `"RuSt"` and data
`[1, 2, 3]`. -/
theorem tryFrom_as_bytes_roundtrip_witness :
    (⟨[82, 117, 83, 116]⟩ : ChunkType).bytes.length = 4 ∧
    (⟨[82, 117, 83, 116]⟩ : ChunkType).is_valid = true ∧
    Chunk.tryFrom (Chunk.new ⟨[82, 117, 83, 116]⟩ [1, 2, 3]).as_bytes
      = some (Except.ok (Chunk.new ⟨[82, 117, 83, 116]⟩ [1, 2, 3])) :=
  ⟨by decide, by decide,
   tryFrom_as_bytes_roundtrip ⟨[82, 117, 83, 116]⟩ [1, 2, 3]
     (by decide) (by decide) (by decide) (by decide)⟩

/-- Claim C4 counterexample: a parse that succeeds yet does not reproduce
its input.  The input is the serialization of a chunk with data length
`2 ^ 32 - 12` (a `2 ^ 32`-byte frame) followed by one junk byte.  At the
junk byte's position the `u32` counter has wrapped to `i = 0`, so the loop
silently skips it: parsing succeeds, and serializing the resulting chunk
yields the `2 ^ 32`-byte frame, not the `2 ^ 32 + 1`-byte input. -/
theorem as_bytes_after_tryFrom_big_fails :
    Chunk.tryFrom ((Chunk.new ⟨[82, 117, 83, 116]⟩ (List.replicate (2 ^ 32 - 12) 0)).as_bytes
        ++ [0])
      = some (Except.ok (Chunk.new ⟨[82, 117, 83, 116]⟩ (List.replicate (2 ^ 32 - 12) 0))) ∧
    (Chunk.new ⟨[82, 117, 83, 116]⟩ (List.replicate (2 ^ 32 - 12) 0)).as_bytes
      ≠ (Chunk.new ⟨[82, 117, 83, 116]⟩ (List.replicate (2 ^ 32 - 12) 0)).as_bytes ++ [0] := by
  have hrep : (List.replicate (2 ^ 32 - 12) (0 : Nat)).length = 2 ^ 32 - 12 :=
    List.length_replicate (2 ^ 32 - 12) 0
  constructor
  · apply tryFrom_new_append ⟨[82, 117, 83, 116]⟩ (List.replicate (2 ^ 32 - 12) 0) [0]
      (by decide) (by decide) (by decide) (by rw [hrep])
    rw [hrep]
    have e1 : (8 + (2 ^ 32 - 12)) % 2 ^ 32 = 2 ^ 32 - 4 := by omega
    have e2 : (12 + (2 ^ 32 - 12)) % 2 ^ 32 = 0 := by omega
    rw [e1, e2]
    simp [chunkLoop]
  · intro hcontra
    have hcl := congrArg List.length hcontra
    rw [List.length_append] at hcl
    have hone : ([0] : List Nat).length = 1 := rfl
    rw [hone] at hcl
    omega

/-- Claim C4 (amended): serialize-after-parse identity for inputs of at most
`2 ^ 32` bytes (longer inputs can parse successfully while dropping
wrapped-index bytes, see the counterexample).  Whenever parsing such a byte
list succeeds, serializing the resulting chunk reproduces the input
byte-for-byte. -/
theorem as_bytes_after_tryFrom (b : List Nat) (hb : ∀ x ∈ b, x < 256)
    (hn : b.length ≤ 2 ^ 32)
    (c : Chunk) (h : Chunk.tryFrom b = some (Except.ok c)) :
    c.as_bytes = b := by
  unfold Chunk.tryFrom at h
  split at h
  · simp at h
  next h12 =>
    have ht4 : (b.take 4).length = 4 := by simp; omega
    have hct4 : ((b.drop 4).take 4).length = 4 := by simp; omega
    rw [if_neg (by omega)] at h
    split at h
    · simp at h
    next hovf =>
      rw [if_neg (by omega)] at h
      split at h
      · simp at h
      next ctf heq =>
        have hctf : ctf = ⟨(b.drop 4).take 4⟩ := chunkType_tryFrom_ok_bytes _ _ heq
        split at h
        · simp at h
        next hval =>
          split at h
          · simp at h
          next hvlen =>
            have hLlt : from_be_bytes (b.take 4) < 2 ^ 32 := by
              rw [from_be_bytes_append_zeros] at hovf
              omega
            have hnw : 8 + from_be_bytes (b.take 4) < 2 ^ 32 := by
              by_contra hcon
              have hv := chunkLoop_fst_nil_of_bound_le
                ((8 + from_be_bytes (b.take 4)) % 2 ^ 32) (by omega) b 0
              rw [hv] at hvlen
              simp at hvlen
              omega
            have hloop := chunkLoop_std (from_be_bytes (b.take 4)) b hnw hn
            have hloop1 : (chunkLoop ((8 + from_be_bytes (b.take 4)) % 2 ^ 32) 0 b).1
                = (b.drop 8).take (from_be_bytes (b.take 4)) := by rw [hloop]
            have hloop2 : (chunkLoop ((8 + from_be_bytes (b.take 4)) % 2 ^ 32) 0 b).2
                = b.drop (8 + from_be_bytes (b.take 4)) := by rw [hloop]
            rw [hloop1, hloop2] at h
            rw [hloop1] at hvlen
            split at h
            · simp at h
            next hc4 =>
              split at h
              · simp at h
              next hcrc =>
                have hceq : c = { length := from_be_bytes (b.take 4)
                                  chunk_type := ctf
                                  chunk_data := (b.drop 8).take (from_be_bytes (b.take 4))
                                  crc := checksum_ieee ((b.drop 4).take 4
                                    ++ (b.drop 8).take (from_be_bytes (b.take 4))) } :=
                  (Except.ok.inj (Option.some.inj h)).symm
                have hcrceq : checksum_ieee ((b.drop 4).take 4
                      ++ (b.drop 8).take (from_be_bytes (b.take 4)))
                    = from_be_bytes (b.drop (8 + from_be_bytes (b.take 4))) :=
                  not_ne_iff.mp hcrc
                have hc4' : (b.drop (8 + from_be_bytes (b.take 4))).length = 4 :=
                  not_ne_iff.mp hc4
                rw [hceq]
                simp only [Chunk.as_bytes, Chunk.data, hctf, hcrceq]
                rw [u32_to_be_bytes_from_be (b.take 4) ht4
                      (fun x hx => hb x (List.mem_of_mem_take hx)),
                    u32_to_be_bytes_from_be (b.drop (8 + from_be_bytes (b.take 4))) hc4'
                      (fun x hx => hb x (List.mem_of_mem_drop hx))]
                rw [List.append_assoc, List.append_assoc]
                exact frame_reassemble b (from_be_bytes (b.take 4))

/-- Witness for `as_bytes_after_tryFrom` at a concrete parseable frame:
the serialization of the `"RuSt"` chunk with data `[1, 2, 3]`. -/
theorem as_bytes_after_tryFrom_witness :
    (∀ x ∈ (Chunk.new ⟨[82, 117, 83, 116]⟩ [1, 2, 3]).as_bytes, x < 256) ∧
    Chunk.tryFrom (Chunk.new ⟨[82, 117, 83, 116]⟩ [1, 2, 3]).as_bytes
      = some (Except.ok (Chunk.new ⟨[82, 117, 83, 116]⟩ [1, 2, 3])) ∧
    (Chunk.new ⟨[82, 117, 83, 116]⟩ [1, 2, 3]).as_bytes
      = (Chunk.new ⟨[82, 117, 83, 116]⟩ [1, 2, 3]).as_bytes :=
  ⟨by decide, by decide,
   as_bytes_after_tryFrom (Chunk.new ⟨[82, 117, 83, 116]⟩ [1, 2, 3]).as_bytes
     (by decide) (by decide) (Chunk.new ⟨[82, 117, 83, 116]⟩ [1, 2, 3]) (by decide)⟩
